import Mathlib

/-!
Verification development for the RAG chatbot in `src/main.py`.

The program is a single-file FastAPI app.  Its core (per the spec) is the
ingestion pipeline `ingest_docs` (fetch → chunk → embed → index) and the
query service `chat_query` (embed query → FAISS search → map positions to
chunk texts).  We shallowly embed that core:

* Python strings are `List Char` (`PyStr`); Python list indexing, including
  negative-index wrap-around, is `pyIndex`.
* The chunker is langchain's `CharacterTextSplitter` as instantiated at
  `src/main.py:181`: separator `"\n"`, `chunk_size=500`, `chunk_overlap=50`,
  default `keep_separator=False` and whitespace-stripping `_join_docs`.
  `pySplit` is `re.split` on the one-character separator, `popLoop` is the
  overlap-pop `while` loop of `_merge_splits`, `mergeLoop` its `for` loop.
* The embedding model (`SentenceTransformer.encode`) is an abstract
  deterministic function `emb : PyStr → Vec` over rational vectors.
* The FAISS `IndexFlatL2` is its list of stored vectors; `searchL2` is
  `index.search`: exact squared-euclidean scan, ascending by distance,
  returning exactly `k` slots per query, the slots beyond `ntotal` padded
  with label `-1` and a sentinel distance (FAISS pads missing neighbours
  with id `-1`; the float sentinel `HUGE_VALF` is modelled by a rational
  `FLT_MAX`-like constant, which no claim inspects).
* The module dictionaries `USER_CREDENTIALS` / `VECTOR_STORE` are the
  fields of `AppState`; a raised Python exception that aborts a handler is
  an `Except.error` result paired with the unchanged state.
-/

/-- Python strings, modelled as their sequence of characters. -/
abbrev PyStr := List Char

/-- Fixed chunker separator: `CharacterTextSplitter(separator="\n", ...)`. -/
def nl : Char := '\n'

/-- `re.split` on the (escaped, one-character) separator, as used by
langchain's `_split_text_with_regex` with `keep_separator=False`.
The result always has at least one piece. -/
def pySplit (sep : Char) : PyStr → List PyStr
  | [] => [[]]
  | c :: rest =>
    if c = sep then [] :: pySplit sep rest
    else
      match pySplit sep rest with
      | [] => [[c]]
      | h :: t => (c :: h) :: t

/-- Python `str.strip()`: drop leading and trailing whitespace. -/
def pyStrip (s : PyStr) : PyStr :=
  ((s.dropWhile Char.isWhitespace).reverse.dropWhile Char.isWhitespace).reverse

/-- Length of `separator.join(docs)` for the one-character separator, which
is exactly the running `total` maintained by `_merge_splits`. -/
def joinLen : List PyStr → Nat
  | [] => 0
  | [u] => u.length
  | u :: v :: rest => u.length + 1 + joinLen (v :: rest)

/-- `separator.join(docs)` for the one-character separator `nl`. -/
def joinSep : List PyStr → PyStr
  | [] => []
  | [u] => u
  | u :: v :: rest => u ++ nl :: joinSep (v :: rest)

/-- langchain `TextSplitter._join_docs`: join with the separator, strip
whitespace, and drop the document when it strips to the empty string
(`None` in Python).  Returned as a zero- or one-element list. -/
def joinDocsOpt (docs : List PyStr) : List PyStr :=
  let t := pyStrip (joinSep docs)
  if t = [] then [] else [t]

/-- The overlap `while` loop of `TextSplitter._merge_splits`: keep popping
the front of `current_doc` (adjusting `total`) while the kept tail is
longer than the overlap (50) or would still overflow `chunk_size` (500)
together with the incoming split of length `dlen`. -/
def popLoop (dlen : Nat) : List PyStr → Nat → List PyStr × Nat
  | [], total => ([], total)
  | u :: rest, total =>
    if 50 < total ∨ (500 < total + dlen + 1 ∧ 0 < total) then
      popLoop dlen rest (total - (u.length + (if rest.isEmpty then 0 else 1)))
    else (u :: rest, total)

/-- The `for` loop of `TextSplitter._merge_splits` over the splits, with
`chunk_size=500`, `chunk_overlap=50` and one-character separator: greedily
accumulate splits in `current` (running joined length `total`), flushing a
joined-and-stripped chunk whenever the next split would overflow, then
keeping an overlap tail via `popLoop`. -/
def mergeLoop : List PyStr → List PyStr → Nat → List PyStr → List PyStr
  | [], current, _, docs => docs ++ joinDocsOpt current
  | d :: rest, current, total, docs =>
    if 500 < total + d.length + (if current.isEmpty then 0 else 1) then
      let docs2 := docs ++ joinDocsOpt current
      let p := popLoop d.length current total
      mergeLoop rest (p.1 ++ [d]) (p.2 + d.length + (if p.1.isEmpty then 0 else 1)) docs2
    else
      mergeLoop rest (current ++ [d]) (total + d.length + (if current.isEmpty then 0 else 1)) docs

/-- The separator-delimited units the splitter works on: `re.split` pieces
with empty strings removed (`[s for s in splits if s != ""]`). -/
def splitUnits (D : PyStr) : List PyStr :=
  (pySplit nl D).filter (fun u => ¬ u.isEmpty)

/-- `CharacterTextSplitter.split_text` as configured at `src/main.py:181`. -/
def splitText (D : PyStr) : List PyStr :=
  mergeLoop (splitUnits D) [] 0 []

/-! ## Embeddings and the FAISS flat L2 index -/

/-- Embedding vectors.  FAISS works on `float32`; we idealise to `ℚ`. -/
abbrev Vec := List ℚ

/-- Squared euclidean distance (FAISS `IndexFlatL2` metric, L2²). -/
def sqDist (u v : Vec) : ℚ :=
  ((u.zip v).map (fun p => (p.1 - p.2) * (p.1 - p.2))).sum

/-- Comparison of scored entries by distance (second component). -/
def distLe (a b : Int × ℚ) : Prop := a.2 ≤ b.2

instance : DecidableRel distLe := fun a b => inferInstanceAs (Decidable (a.2 ≤ b.2))

instance : IsTotal (Int × ℚ) distLe := ⟨fun a b => le_total a.2 b.2⟩

instance : IsTrans (Int × ℚ) distLe := ⟨fun _ _ _ h1 h2 => le_trans h1 h2⟩

/-- All database vectors scored against the query, labelled with their
insertion positions starting at `i`. -/
def scoredFrom (q : Vec) : Nat → List Vec → List (Int × ℚ)
  | _, [] => []
  | i, v :: rest => ((i : Int), sqDist q v) :: scoredFrom q (i + 1) rest

/-- FAISS pads result slots it cannot fill (query asked for more neighbours
than the index holds) with id `-1`; the accompanying float sentinel
(`HUGE_VALF`) is modelled as a `FLT_MAX`-like rational, never inspected. -/
def padEntry : Int × ℚ := (-1, (340282346638528859811704183484516925440 : ℚ))

/-- The result slots of `faiss.IndexFlatL2.search` for one query vector
and a validated `k ≥ 1`: exact scan, ascending squared-euclidean distance,
exactly `k` slots, missing neighbours padded with `padEntry`.  The index
itself is the list of added vectors in insertion order (`index.add` at
`src/main.py:191`).  The `k`-validation faiss performs first is
`searchL2Checked` below. -/
def searchL2 (db : List Vec) (q : Vec) (k : Nat) : List (Int × ℚ) :=
  (List.insertionSort distLe (scoredFrom q 0 db) ++ List.replicate k padEntry).take k

/-- `faiss.IndexFlatL2.search` including its argument validation: faiss
raises for a non-positive `k` (the Python wrapper asserts `k > 0` and
`IndexFlat::search` throws via `FAISS_THROW_IF_NOT(k > 0)`), so `k = 0`
is an error, not an empty result; for `k ≥ 1` it returns the `searchL2`
slots. -/
def searchL2Checked (db : List Vec) (q : Vec) (k : Nat) :
    Except Unit (List (Int × ℚ)) :=
  if k = 0 then Except.error () else Except.ok (searchL2 db q k)

/-! ## Google-Docs payload and text extraction

The nested optional structure mirrors the duck-typed traversal at
`src/main.py:172-178` (and the identical `extract_text` at 144-151):
`doc.get("body", {}).get("content", [])`, `"paragraph" in element`,
`element["paragraph"].get("elements", [])`,
`"textRun" in elem and "content" in elem["textRun"]`. -/

/-- A `textRun` object: its `content` key may be absent. -/
structure TextRun where
  content : Option PyStr

/-- A paragraph element: its `textRun` key may be absent. -/
structure ParaElement where
  textRun : Option TextRun

/-- A paragraph: its `elements` key may be absent. -/
structure Paragraph where
  elements : Option (List ParaElement)

/-- A structural element of the body: its `paragraph` key may be absent. -/
structure StructuralElement where
  paragraph : Option Paragraph

/-- The document body: its `content` key may be absent. -/
structure Body where
  content : Option (List StructuralElement)

/-- A fetched Google-Docs payload: its `body` key may be absent. -/
structure GDoc where
  body : Option Body

/-- `doc.get("body", {}).get("content", [])`. -/
def contentOf (g : GDoc) : List StructuralElement :=
  match g.body with
  | none => []
  | some b => b.content.getD []

/-- The inner `for elem in element["paragraph"].get("elements", [])` loop:
append each present `textRun.content` to the accumulator. -/
def collectRuns (elements : List ParaElement) (acc : List PyStr) : List PyStr :=
  elements.foldl
    (fun a e =>
      match e.textRun with
      | none => a
      | some tr =>
        match tr.content with
        | none => a
        | some c => a ++ [c])
    acc

/-- The text extraction of `src/main.py:172-178`: nested loops accumulating
`text_chunks`, then `"".join(text_chunks)`. -/
def extractText (g : GDoc) : PyStr :=
  List.join
    ((contentOf g).foldl
      (fun a el =>
        match el.paragraph with
        | none => a
        | some p => collectRuns (p.elements.getD []) a)
      [])

/-- The same extraction, written declaratively from the claim: the
concatenation, in document order, of the content of every present
`textRun`, with every absent field contributing nothing. -/
def runTexts (g : GDoc) : List PyStr :=
  (contentOf g).bind
    (fun el =>
      match el.paragraph with
      | none => []
      | some p => (p.elements.getD []).filterMap (fun e => e.textRun.bind TextRun.content))

/-! ## Application state and the two core handlers -/

/-- A session's vector store: the FAISS index contents and the parallel
ordered chunk-text list (`VECTOR_STORE[user_key] = {"index": ..., "texts": ...}`). -/
structure VStore where
  index : List Vec
  texts : List PyStr

/-- The module-level mutable state: `USER_CREDENTIALS` (modelled as bare
presence) and `VECTOR_STORE`, both keyed by user. -/
structure AppState where
  creds : String → Option Unit
  stores : String → Option VStore

/-- The single hardcoded session key. -/
def defaultUser : String := "default_user"

/-- Errors `ingest_docs` can surface: the 401 branch, a raised
`googleapiclient` fetch exception, and the `IndexError` on
`embeddings.shape[1]` when zero chunks were produced. -/
inductive IngestError
  | notAuthenticated
  | fetchFailed
  | embedShapeError
deriving DecidableEq

/-- Errors `chat_query` can surface: the 400 no-store branch, and a Python
`IndexError` if a returned position were below `-len(texts)`. -/
inductive QueryError
  | noStoreIngested
  | indexError
deriving DecidableEq

/-- The sequential fetch loop of `src/main.py:170-171`: stops at the first
raised fetch exception. -/
def fetchAll (fetch : String → Except Unit GDoc) : List String → Except Unit (List GDoc)
  | [] => Except.ok []
  | d :: rest =>
    match fetch d with
    | Except.error e => Except.error e
    | Except.ok g =>
      match fetchAll fetch rest with
      | Except.error e => Except.error e
      | Except.ok gs => Except.ok (g :: gs)

/-- The `chunks` list built by the loop at `src/main.py:182-184`: extract
each fetched document's text, split each, and flatten in order. -/
def ingestChunks (docs : List GDoc) : List PyStr :=
  ((docs.map extractText).map splitText).join

/-- `ingest_docs` (`src/main.py:160-194`): credential check, sequential
fetch of every document, extraction, chunking of each text, one batch
embedding call, fresh index build, and a single final replacement of the
session's store.  The pair is (state after the call, result). -/
def ingest (emb : PyStr → Vec) (fetch : String → Except Unit GDoc)
    (st : AppState) (ids : List String) : AppState × Except IngestError Nat :=
  match st.creds defaultUser with
  | none => (st, Except.error IngestError.notAuthenticated)
  | some _ =>
    match fetchAll fetch ids with
    | Except.error _ => (st, Except.error IngestError.fetchFailed)
    | Except.ok docs =>
      if (ingestChunks docs).isEmpty then (st, Except.error IngestError.embedShapeError)
      else
        ({ st with
            stores := fun u =>
              if u = defaultUser then some ⟨(ingestChunks docs).map emb, ingestChunks docs⟩
              else st.stores u },
          Except.ok (ingestChunks docs).length)

/-- Python list indexing `l[i]` for an `int` index: direct for
`0 ≤ i < len`, wrap-around for `-len ≤ i < 0`, `IndexError` otherwise. -/
def pyIndex (l : List PyStr) (i : Int) : Option PyStr :=
  if 0 ≤ i then (if i < (l.length : Int) then l.get? i.toNat else none)
  else (if -(l.length : Int) ≤ i then l.get? ((l.length : Int) + i).toNat else none)

/-- The list comprehension `[texts[i] for i in I[0]]`: fails like Python
if any single indexing fails. -/
def pyGets (l : List PyStr) : List Int → Option (List PyStr)
  | [] => some []
  | i :: rest =>
    match pyIndex l i with
    | none => none
    | some x =>
      match pyGets l rest with
      | none => none
      | some xs => some (x :: xs)

/-- The display separator `"\n---\n"` of `src/main.py:225`. -/
def respSep : PyStr := "\n---\n".data

/-- `chat_query` (`src/main.py:207-226`): look up the session's store,
embed the query, FAISS-search with `k=3`, map returned positions to chunk
texts by Python indexing, and join for display. -/
def chatQuery (emb : PyStr → Vec) (st : AppState) (q : PyStr) :
    AppState × Except QueryError PyStr :=
  match st.stores defaultUser with
  | none => (st, Except.error QueryError.noStoreIngested)
  | some store =>
    match pyGets store.texts ((searchL2 store.index (emb q) 3).map Prod.fst) with
    | none => (st, Except.error QueryError.indexError)
    | some results => (st, Except.ok (List.intercalate respSep results))

/-- The invariant of spec §3: chunk-text count equals indexed-vector count,
and the i-th stored vector is the embedding of the i-th chunk text. -/
def storeInv (emb : PyStr → Vec) (vs : VStore) : Prop :=
  vs.index.length = vs.texts.length ∧ ∀ i, vs.index.get? i = (vs.texts.get? i).map emb

/-- What the splitter promises of each produced chunk, relative to the pool
`U` of separator-units: non-empty, and within the 500-character bound unless
it is a single whole (whitespace-stripped) oversized unit. -/
def chunkOK (U : List PyStr) (c : PyStr) : Prop :=
  c ≠ [] ∧ (c.length ≤ 500 ∨ ∃ u ∈ U, c = pyStrip u ∧ 500 < u.length)

/-! ## Concrete instances used by evaluation and witness theorems -/

/-- A concrete stand-in embedding model (any deterministic function is a
valid instantiation of the abstract `SentenceTransformer`). -/
def emb0 : PyStr → Vec := fun s => [(s.length : ℚ)]

/-- The acceptance-test document of spec §8. -/
def dCat : PyStr := "The cat sat.\n\nThe dog ran.".data

/-- Its single chunk after splitting (the doubled newline collapses). -/
def catChunk : PyStr := "The cat sat.\nThe dog ran.".data

/-- The acceptance-test document as a Google-Docs payload. -/
def docCat : GDoc := ⟨some ⟨some [⟨some ⟨some [⟨some ⟨some dCat⟩⟩]⟩⟩]⟩⟩

/-- A fetch oracle that returns the acceptance-test document. -/
def fetchD : String → Except Unit GDoc := fun _ => Except.ok docCat

/-- A fetch oracle whose every fetch raises. -/
def fetchFail : String → Except Unit GDoc := fun _ => Except.error ()

/-- Authenticated state with no ingested store. -/
def st0 : AppState := ⟨fun _ => some (), fun _ => none⟩

/-- Fresh state: no credentials, no store. -/
def stEmpty : AppState := ⟨fun _ => none, fun _ => none⟩

/-- The acceptance-test query string. -/
def qCat : PyStr := "cat".data

/-- A store holding a single chunk (fewer than `k = 3`). -/
def storeX : VStore := ⟨[[(1 : ℚ)]], [['x']]⟩

/-- Authenticated state whose session store is `storeX`. -/
def stX : AppState :=
  ⟨fun _ => some (), fun u => if u = defaultUser then some storeX else none⟩

instance exceptDecEq {ε α : Type} [DecidableEq ε] [DecidableEq α] : DecidableEq (Except ε α)
  | Except.ok a, Except.ok b =>
    if h : a = b then isTrue (by rw [h]) else isFalse (fun hc => h (Except.ok.inj hc))
  | Except.error a, Except.error b =>
    if h : a = b then isTrue (by rw [h]) else isFalse (fun hc => h (Except.error.inj hc))
  | Except.ok _, Except.error _ => isFalse (fun hc => Except.noConfusion hc)
  | Except.error _, Except.ok _ => isFalse (fun hc => Except.noConfusion hc)

/-! ## Chunker lemmas -/

theorem joinLen_cons (u : PyStr) (rest : List PyStr) :
    joinLen (u :: rest) = u.length + (if rest.isEmpty then 0 else 1) + joinLen rest := by
  cases rest <;> simp [joinLen]

theorem joinSep_length : ∀ l, (joinSep l).length = joinLen l
  | [] => rfl
  | [u] => by simp [joinSep, joinLen]
  | u :: v :: rest => by
    have ih := joinSep_length (v :: rest)
    simp only [joinSep, joinLen, List.length_append, List.length_cons, ih]
    omega

theorem length_dropWhile_le (p : Char → Bool) : ∀ l : PyStr, (l.dropWhile p).length ≤ l.length
  | [] => le_refl _
  | c :: rest => by
    simp only [List.dropWhile]
    split
    · exact le_trans (length_dropWhile_le p rest) (by simp)
    · simp

theorem pyStrip_length_le (s : PyStr) : (pyStrip s).length ≤ s.length := by
  unfold pyStrip
  calc (((s.dropWhile Char.isWhitespace).reverse.dropWhile Char.isWhitespace).reverse).length
      = ((s.dropWhile Char.isWhitespace).reverse.dropWhile Char.isWhitespace).length := by
        simp
    _ ≤ (s.dropWhile Char.isWhitespace).reverse.length := length_dropWhile_le _ _
    _ = (s.dropWhile Char.isWhitespace).length := by simp
    _ ≤ s.length := length_dropWhile_le _ _

theorem pySplit_ne_nil (sep : Char) : ∀ s, pySplit sep s ≠ []
  | [] => by simp [pySplit]
  | c :: rest => by
    simp only [pySplit]
    split
    · simp
    · split
      · simp
      · simp

theorem joinSep_pySplit : ∀ s, joinSep (pySplit nl s) = s
  | [] => rfl
  | c :: rest => by
    have ih := joinSep_pySplit rest
    by_cases hc : c = nl
    · subst hc
      simp only [pySplit, if_pos rfl]
      rcases h : pySplit nl rest with _ | ⟨hh, tt⟩
      · exact absurd h (pySplit_ne_nil nl rest)
      · rw [h] at ih
        simp only [joinSep]
        rw [ih]
        simp
    · simp only [pySplit, if_neg hc]
      rcases h : pySplit nl rest with _ | ⟨hh, tt⟩
      · exact absurd h (pySplit_ne_nil nl rest)
      · rw [h] at ih
        rcases tt with _ | ⟨x, xs⟩
        · simp only [joinSep] at ih ⊢
          rw [ih]
        · simp only [joinSep] at ih ⊢
          rw [List.cons_append, ih]

theorem joinLen_append_singleton_ne :
    ∀ (l : List PyStr), l ≠ [] → ∀ (d : PyStr),
      joinLen (l ++ [d]) = joinLen l + 1 + d.length
  | [], h, _ => absurd rfl h
  | [u], _, d => by simp [joinLen]
  | u :: v :: rest, _, d => by
    have ih := joinLen_append_singleton_ne (v :: rest) (by simp) d
    rw [List.cons_append]
    show u.length + 1 + joinLen ((v :: rest) ++ [d]) = joinLen (u :: v :: rest) + 1 + d.length
    rw [ih]
    show u.length + 1 + (joinLen (v :: rest) + 1 + d.length)
        = u.length + 1 + joinLen (v :: rest) + 1 + d.length
    omega

theorem joinLen_append_ne :
    ∀ (a b : List PyStr), a ≠ [] → b ≠ [] →
      joinLen (a ++ b) = joinLen a + 1 + joinLen b
  | [], _, ha, _ => absurd rfl ha
  | [u], b, _, hb => by
    rcases b with _ | ⟨x, xs⟩
    · exact absurd rfl hb
    · show joinLen (u :: x :: xs) = joinLen [u] + 1 + joinLen (x :: xs)
      show u.length + 1 + joinLen (x :: xs) = joinLen [u] + 1 + joinLen (x :: xs)
      simp [joinLen]
  | u :: v :: rest, b, _, hb => by
    have ih := joinLen_append_ne (v :: rest) b (by simp) hb
    rw [List.cons_append]
    show u.length + 1 + joinLen ((v :: rest) ++ b) = joinLen (u :: v :: rest) + 1 + joinLen b
    rw [ih]
    show u.length + 1 + (joinLen (v :: rest) + 1 + joinLen b)
        = u.length + 1 + joinLen (v :: rest) + 1 + joinLen b
    omega

theorem joinLen_pos : ∀ (l : List PyStr), l ≠ [] → (∀ u ∈ l, u ≠ []) → 0 < joinLen l
  | [], h, _ => absurd rfl h
  | u :: rest, _, hne => by
    have hu : u ≠ [] := hne u (by simp)
    have : 0 < u.length := List.length_pos.mpr hu
    rw [joinLen_cons]
    omega

theorem joinLen_pos_of_ne (l : List PyStr) (hl : l ≠ []) (hne : ∀ u ∈ l, u ≠ []) :
    0 < joinLen l := joinLen_pos l hl hne

theorem popLoop_spec (dlen : Nat) :
    ∀ (current : List PyStr) (total : Nat), total = joinLen current →
      (popLoop dlen current total).2 = joinLen (popLoop dlen current total).1
      ∧ (∀ u ∈ (popLoop dlen current total).1, u ∈ current)
      ∧ ((popLoop dlen current total).1 = [] ∨
          ((popLoop dlen current total).2 ≤ 50 ∧
            ((popLoop dlen current total).2 + dlen + 1 ≤ 500 ∨ (popLoop dlen current total).2 = 0)))
  | [], total, ht => by
    simp [popLoop, ht, joinLen]
  | u :: rest, total, ht => by
    rw [joinLen_cons] at ht
    simp only [popLoop]
    by_cases hc : 50 < total ∨ (500 < total + dlen + 1 ∧ 0 < total)
    · rw [if_pos hc]
      have hsub : total - (u.length + (if rest.isEmpty then 0 else 1)) = joinLen rest := by
        by_cases hre : rest.isEmpty <;> simp only [hre, if_true, if_false] at ht ⊢ <;> omega
      have hrec := popLoop_spec dlen rest _ hsub
      exact ⟨hrec.1, fun x hx => List.mem_cons_of_mem u (hrec.2.1 x hx), hrec.2.2⟩
    · rw [if_neg hc]
      push_neg at hc
      refine ⟨by rw [joinLen_cons]; exact ht, fun x hx => hx, Or.inr ⟨hc.1, ?_⟩⟩
      by_cases h5 : 500 < total + dlen + 1
      · have := hc.2 h5
        omega
      · omega

theorem joinDocsOpt_ok (U : List PyStr) (current : List PyStr)
    (hmem : ∀ u ∈ current, u ∈ U)
    (hinv : joinLen current ≤ 500 ∨ ∃ u, current = [u]) :
    ∀ c ∈ joinDocsOpt current, chunkOK U c := by
  intro c hc
  simp only [joinDocsOpt] at hc
  by_cases h : pyStrip (joinSep current) = []
  · rw [if_pos h] at hc
    simp at hc
  · rw [if_neg h] at hc
    simp only [List.mem_singleton] at hc
    subst hc
    refine ⟨h, ?_⟩
    rcases hinv with h1 | ⟨u, rfl⟩
    · left
      calc (pyStrip (joinSep current)).length
          ≤ (joinSep current).length := pyStrip_length_le _
        _ = joinLen current := joinSep_length _
        _ ≤ 500 := h1
    · by_cases hlen : (pyStrip (joinSep [u])).length ≤ 500
      · exact Or.inl hlen
      · right
        refine ⟨u, hmem u (by simp), rfl, ?_⟩
        have h1 : joinSep [u] = u := rfl
        have h2 := pyStrip_length_le (joinSep [u])
        rw [h1] at h2 hlen
        omega

theorem mergeLoop_sound (U : List PyStr) (hU : ∀ u ∈ U, u ≠ []) :
    ∀ (splits current : List PyStr) (total : Nat) (docs : List PyStr),
      (∀ u ∈ splits, u ∈ U) → (∀ u ∈ current, u ∈ U) →
      total = joinLen current →
      (joinLen current ≤ 500 ∨ ∃ u, current = [u]) →
      (∀ c ∈ docs, chunkOK U c) →
      ∀ c ∈ mergeLoop splits current total docs, chunkOK U c
  | [], current, total, docs, _, hcm, _, hinv, hdocs => by
    intro c hc
    simp only [mergeLoop] at hc
    rcases List.mem_append.mp hc with h | h
    · exact hdocs c h
    · exact joinDocsOpt_ok U current hcm hinv c h
  | d :: rest, current, total, docs, hsm, hcm, ht, hinv, hdocs => by
    intro c hc
    have hdU : d ∈ U := hsm d (by simp)
    have hrm : ∀ u ∈ rest, u ∈ U := fun u hu => hsm u (List.mem_cons_of_mem d hu)
    simp only [mergeLoop] at hc
    by_cases hcond : 500 < total + d.length + (if current.isEmpty then 0 else 1)
    · rw [if_pos hcond] at hc
      obtain ⟨hp2, hpmem, hpexit⟩ := popLoop_spec d.length current total ht
      have hpU : ∀ u ∈ (popLoop d.length current total).1, u ∈ U :=
        fun u hu => hcm u (hpmem u hu)
      have hmem2 : ∀ u ∈ (popLoop d.length current total).1 ++ [d], u ∈ U := by
        intro u hu
        rcases List.mem_append.mp hu with h | h
        · exact hpU u h
        · simp only [List.mem_singleton] at h
          subst h
          exact hdU
      have hdocs2 : ∀ x ∈ docs ++ joinDocsOpt current, chunkOK U x := by
        intro x hx
        rcases List.mem_append.mp hx with h | h
        · exact hdocs x h
        · exact joinDocsOpt_ok U current hcm hinv x h
      by_cases hp1 : (popLoop d.length current total).1 = []
      · have hz : (popLoop d.length current total).2 = 0 := by
          rw [hp2, hp1]
          rfl
        refine mergeLoop_sound U hU rest _ _ _ hrm hmem2 ?_ ?_ hdocs2 c hc
        · rw [hp1, hz]
          simp [joinLen]
        · refine Or.inr ⟨d, ?_⟩
          rw [hp1]
          rfl
      · have hpos : 0 < joinLen (popLoop d.length current total).1 :=
          joinLen_pos_of_ne _ hp1 (fun u hu => hU u (hpU u hu))
        rcases hpexit with h | ⟨h50, hor⟩
        · exact absurd h hp1
        have hfit : (popLoop d.length current total).2 + d.length + 1 ≤ 500 := by
          rcases hor with h | h
          · exact h
          · rw [h] at hp2
            omega
        have hje : joinLen ((popLoop d.length current total).1 ++ [d])
            = joinLen (popLoop d.length current total).1 + 1 + d.length :=
          joinLen_append_singleton_ne _ hp1 d
        have hite : (if ((popLoop d.length current total).1).isEmpty = true then 0 else 1) = 1 := by
          have hne : ((popLoop d.length current total).1).isEmpty = false := by
            simpa using hp1
          rw [hne]
          rfl
        rw [hite] at hc
        refine mergeLoop_sound U hU rest _ _ _ hrm hmem2 ?_ ?_ hdocs2 c hc
        · rw [hje, ← hp2]
          omega
        · left
          rw [hje, ← hp2]
          omega
    · rw [if_neg hcond] at hc
      push_neg at hcond
      have hmem2 : ∀ u ∈ current ++ [d], u ∈ U := by
        intro u hu
        rcases List.mem_append.mp hu with h | h
        · exact hcm u h
        · simp only [List.mem_singleton] at h
          subst h
          exact hdU
      have htot : total + d.length + (if current.isEmpty then 0 else 1)
          = joinLen (current ++ [d]) := by
        by_cases h : current = []
        · subst h
          simp [joinLen] at ht ⊢
          omega
        · have he : current.isEmpty = false := by simpa using h
          rw [he, joinLen_append_singleton_ne current h d, ← ht]
          simp
          omega
      refine mergeLoop_sound U hU rest (current ++ [d]) _ docs hrm hmem2 htot ?_ hdocs c hc
      left
      rw [← htot]
      exact hcond

theorem joinLen_step (current : List PyStr) (d : PyStr) :
    joinLen current + d.length + (if current.isEmpty then 0 else 1)
      = joinLen (current ++ [d]) := by
  by_cases h : current = []
  · subst h
    simp [joinLen]
  · have he : current.isEmpty = false := by simpa using h
    rw [he, joinLen_append_singleton_ne current h d]
    simp
    omega

theorem joinLen_prefix_le (X Y : List PyStr) : joinLen X ≤ joinLen (X ++ Y) := by
  rcases Y with _ | ⟨y, ys⟩
  · simp
  · rcases X with _ | ⟨x, xs⟩
    · simp
      exact Nat.zero_le _
    · rw [joinLen_append_ne (x :: xs) (y :: ys) (by simp) (by simp)]
      omega

theorem mergeLoop_fits :
    ∀ (splits current : List PyStr) (total : Nat) (docs : List PyStr),
      total = joinLen current →
      joinLen (current ++ splits) ≤ 500 →
      mergeLoop splits current total docs = docs ++ joinDocsOpt (current ++ splits)
  | [], current, total, docs, _, _ => by
    simp [mergeLoop]
  | d :: rest, current, total, docs, ht, hfit => by
    have hassoc : (current ++ [d]) ++ rest = current ++ d :: rest := by
      rw [List.append_assoc]
      rfl
    have htot : total + d.length + (if current.isEmpty then 0 else 1)
        = joinLen (current ++ [d]) := by
      rw [ht]
      exact joinLen_step current d
    have hle : joinLen (current ++ [d]) ≤ 500 := by
      calc joinLen (current ++ [d]) ≤ joinLen ((current ++ [d]) ++ rest) :=
            joinLen_prefix_le _ _
        _ = joinLen (current ++ d :: rest) := by rw [hassoc]
        _ ≤ 500 := hfit
    have hcond : ¬ (500 < total + d.length + (if current.isEmpty then 0 else 1)) := by
      rw [htot]
      omega
    simp only [mergeLoop, if_neg hcond]
    rw [mergeLoop_fits rest (current ++ [d]) _ docs htot (by rw [hassoc]; exact hfit)]
    rw [hassoc]

theorem splitUnits_eq_of_no_empty (D : PyStr) (h1 : ∀ u ∈ pySplit nl D, u ≠ []) :
    splitUnits D = pySplit nl D := by
  unfold splitUnits
  rw [List.filter_eq_self]
  intro u hu
  simpa using h1 u hu

/-- A document with no empty separator-units, no surrounding whitespace,
that fits within one chunk is returned verbatim as the single chunk. -/
theorem splitText_singleton (D : PyStr) (h1 : ∀ u ∈ pySplit nl D, u ≠ [])
    (h2 : pyStrip D = D) (h3 : D.length ≤ 500) (h4 : D ≠ []) :
    splitText D = [D] := by
  unfold splitText
  rw [splitUnits_eq_of_no_empty D h1]
  have hjoin : joinSep (pySplit nl D) = D := joinSep_pySplit D
  have hlen : joinLen (pySplit nl D) ≤ 500 := by
    rw [← joinSep_length, hjoin]
    exact h3
  rw [mergeLoop_fits (pySplit nl D) [] 0 [] rfl (by simpa using hlen)]
  simp only [List.nil_append, joinDocsOpt, hjoin, h2]
  rw [if_neg h4]

/-! ## Fetch-loop and search lemmas -/

theorem fetchAll_error_of_mem (fetch : String → Except Unit GDoc) :
    ∀ (ids : List String), (∃ d ∈ ids, ∃ e, fetch d = Except.error e) →
      ∃ e, fetchAll fetch ids = Except.error e
  | [], h => by
    rcases h with ⟨d, hd, _⟩
    simp at hd
  | i :: rest, h => by
    simp only [fetchAll]
    rcases hf : fetch i with e | g
    · exact ⟨e, rfl⟩
    · rcases h with ⟨d, hd, e, he⟩
      rcases List.mem_cons.mp hd with rfl | hd2
      · rw [hf] at he
        exact absurd he (by simp)
      · rcases fetchAll_error_of_mem fetch rest ⟨d, hd2, e, he⟩ with ⟨e2, he2⟩
        rw [he2]
        exact ⟨e2, rfl⟩

theorem fetchAll_ok_forall (fetch : String → Except Unit GDoc) :
    ∀ (ids : List String) (gs : List GDoc), fetchAll fetch ids = Except.ok gs →
      ∀ d ∈ ids, ∃ g, fetch d = Except.ok g
  | [], _, _, d, hd => by simp at hd
  | i :: rest, gs, h, d, hd => by
    simp only [fetchAll] at h
    rcases hf : fetch i with e | g
    · rw [hf] at h
      exact absurd h (by simp)
    · rw [hf] at h
      rcases hr : fetchAll fetch rest with e2 | gs2
      · rw [hr] at h
        exact absurd h (by simp)
      · rcases List.mem_cons.mp hd with rfl | hd2
        · exact ⟨g, hf⟩
        · exact fetchAll_ok_forall fetch rest gs2 hr d hd2

theorem scoredFrom_length (q : Vec) : ∀ (i : Nat) (db : List Vec),
    (scoredFrom q i db).length = db.length
  | _, [] => rfl
  | i, v :: rest => by
    simp only [scoredFrom, List.length_cons, scoredFrom_length q (i + 1) rest]

theorem scoredFrom_mem (q : Vec) : ∀ (db : List Vec) (i : Nat) (p : Int × ℚ),
    p ∈ scoredFrom q i db →
      ∃ j w, db.get? j = some w ∧ p = (((i + j : Nat) : Int), sqDist q w)
  | [], _, _, hp => by simp [scoredFrom] at hp
  | v :: rest, i, p, hp => by
    simp only [scoredFrom, List.mem_cons] at hp
    rcases hp with rfl | hp
    · exact ⟨0, v, rfl, by simp⟩
    · rcases scoredFrom_mem q rest (i + 1) p hp with ⟨j, w, hw, hpe⟩
      refine ⟨j + 1, w, by simpa using hw, ?_⟩
      rw [hpe]
      congr 1
      omega

theorem sortScored_length (db : List Vec) (q : Vec) :
    (List.insertionSort distLe (scoredFrom q 0 db)).length = db.length := by
  rw [List.length_insertionSort, scoredFrom_length]

theorem searchL2_eq (db : List Vec) (q : Vec) (k : Nat) :
    searchL2 db q k
      = (List.insertionSort distLe (scoredFrom q 0 db)).take k
        ++ List.replicate (k - db.length) padEntry := by
  unfold searchL2
  rw [List.take_append_eq_append_take, List.take_replicate, sortScored_length,
    Nat.min_eq_left (Nat.sub_le k db.length)]

theorem searchL2_length (db : List Vec) (q : Vec) (k : Nat) :
    (searchL2 db q k).length = k := by
  rw [searchL2_eq, List.length_append, List.length_take, List.length_replicate,
    sortScored_length]
  omega

theorem searchL2_valid_sorted (db : List Vec) (q : Vec) (k : Nat) :
    ((List.insertionSort distLe (scoredFrom q 0 db)).take k).length = min k db.length
    ∧ List.Sorted distLe ((List.insertionSort distLe (scoredFrom q 0 db)).take k)
    ∧ ∀ p ∈ (List.insertionSort distLe (scoredFrom q 0 db)).take k,
        ∃ j w, db.get? j = some w ∧ p = ((j : Int), sqDist q w) := by
  refine ⟨?_, ?_, ?_⟩
  · rw [List.length_take, sortScored_length]
  · exact (List.sorted_insertionSort distLe _).sublist (List.take_sublist _ _)
  · intro p hp
    have hp2 : p ∈ List.insertionSort distLe (scoredFrom q 0 db) :=
      (List.take_sublist _ _).subset hp
    have hp3 : p ∈ scoredFrom q 0 db := (List.mem_insertionSort distLe).mp hp2
    rcases scoredFrom_mem q db 0 p hp3 with ⟨j, w, hw, hpe⟩
    exact ⟨j, w, hw, by simpa using hpe⟩

theorem scoredFrom_fst_lt (q : Vec) : ∀ (db : List Vec) (i : Nat),
    (scoredFrom q i db).Pairwise (fun a b => a.1 < b.1)
  | [], _ => by simp [scoredFrom]
  | v :: rest, i => by
    simp only [scoredFrom, List.pairwise_cons]
    constructor
    · intro p hp
      rcases scoredFrom_mem q rest (i + 1) p hp with ⟨j, w, _, rfl⟩
      show (i : Int) < ((i + 1 + j : Nat) : Int)
      push_cast
      omega
    · exact scoredFrom_fst_lt q rest (i + 1)

theorem searchL2_take_pairwise_ne (db : List Vec) (q : Vec) (k : Nat) :
    ((List.insertionSort distLe (scoredFrom q 0 db)).take k).Pairwise
      (fun a b => a.1 ≠ b.1) := by
  have h1 : (scoredFrom q 0 db).Pairwise (fun a b => a.1 < b.1) :=
    scoredFrom_fst_lt q db 0
  have h2 : (scoredFrom q 0 db).Pairwise (fun a b : Int × ℚ => a.1 ≠ b.1) :=
    h1.imp (fun hab => ne_of_lt hab)
  have h3 : (List.insertionSort distLe (scoredFrom q 0 db)).Pairwise
      (fun a b : Int × ℚ => a.1 ≠ b.1) :=
    (((List.perm_insertionSort distLe (scoredFrom q 0 db)).symm).pairwise_iff
      (fun hab => Ne.symm hab)).mp h2
  exact h3.sublist (List.take_sublist _ _)

theorem collectRuns_eq (elements : List ParaElement) :
    ∀ acc, collectRuns elements acc
      = acc ++ elements.filterMap (fun e => e.textRun.bind TextRun.content) := by
  induction elements with
  | nil => intro acc; simp [collectRuns]
  | cons e rest ih =>
    intro acc
    simp only [collectRuns, List.foldl_cons] at *
    rcases he : e.textRun with _ | tr
    · simp only [List.filterMap_cons, he, Option.none_bind]
      exact ih acc
    · rcases hc : tr.content with _ | c
      · simp only [List.filterMap_cons, he, hc, Option.some_bind]
        exact ih acc
      · simp only [List.filterMap_cons, he, hc, Option.some_bind]
        rw [ih (acc ++ [c])]
        simp

theorem extract_fold_eq (content : List StructuralElement) :
    ∀ acc,
      content.foldl
        (fun a el =>
          match el.paragraph with
          | none => a
          | some p => collectRuns (p.elements.getD []) a)
        acc
      = acc ++ content.bind
          (fun el =>
            match el.paragraph with
            | none => []
            | some p => (p.elements.getD []).filterMap
                (fun e => e.textRun.bind TextRun.content)) := by
  induction content with
  | nil => intro acc; simp
  | cons el rest ih =>
    intro acc
    simp only [List.foldl_cons, List.cons_bind]
    rcases hp : el.paragraph with _ | p
    · simp only [hp]
      rw [ih acc]
      simp
    · simp only [hp]
      rw [collectRuns_eq, ih]
      simp

/-! ## Case analysis of the ingestion handler -/

theorem ingest_cases (emb : PyStr → Vec) (fetch : String → Except Unit GDoc)
    (st : AppState) (ids : List String) :
    ((ingest emb fetch st ids).1 = st
      ∧ ∃ e, (ingest emb fetch st ids).2 = Except.error e)
    ∨ ((∀ d ∈ ids, ∃ g, fetch d = Except.ok g)
        ∧ ∃ chunks : List PyStr,
            (ingest emb fetch st ids).2 = Except.ok chunks.length
            ∧ (ingest emb fetch st ids).1.stores defaultUser
                = some ⟨chunks.map emb, chunks⟩
            ∧ (ingest emb fetch st ids).1.creds = st.creds
            ∧ ∀ u, u ≠ defaultUser →
                (ingest emb fetch st ids).1.stores u = st.stores u) := by
  unfold ingest
  split
  · exact Or.inl ⟨rfl, IngestError.notAuthenticated, rfl⟩
  · split
    · exact Or.inl ⟨rfl, IngestError.fetchFailed, rfl⟩
    · next gs hfa =>
      by_cases hemp : (ingestChunks gs).isEmpty
      · rw [if_pos hemp]
        exact Or.inl ⟨rfl, IngestError.embedShapeError, rfl⟩
      · rw [if_neg hemp]
        refine Or.inr ⟨fetchAll_ok_forall fetch ids gs hfa, ingestChunks gs, rfl, ?_, rfl, ?_⟩
        · simp
        · intro u hu
          simp [hu]

/-! ## Claim theorems -/

/-- C1 (code bug, evaluation at the failing input): with a session store
holding a single chunk, the `k = 3` FAISS search returns positions
`[0, -1, -1]`; `-1` is not a valid direct array index into the chunk-text
sequence (it is negative), and Python's negative indexing makes
`texts[-1]` wrap around to the last chunk, so the chat response repeats
the single chunk three times instead of reading only valid positions. -/
theorem c1_invalid_position_eval :
    (searchL2 storeX.index (emb0 qCat) 3).map Prod.fst = [0, -1, -1]
    ∧ ¬ (0 ≤ (-1 : Int) ∧ (-1 : Int) < (storeX.texts.length : Int))
    ∧ pyIndex storeX.texts (-1) = some (['x'])
    ∧ (chatQuery emb0 stX qCat).2
        = Except.ok (['x'] ++ respSep ++ ['x'] ++ respSep ++ ['x']) := by
  refine ⟨by decide, by decide, by decide, by decide⟩

/-- C2: ingestion is atomic.  If any requested document's fetch fails the
call returns an error and the state (hence any pre-existing store) is
unchanged; conversely a successful result implies every fetch succeeded,
so the store is replaced only when all documents were fetched. -/
theorem c2_ingest_atomic (emb : PyStr → Vec) (fetch : String → Except Unit GDoc)
    (st : AppState) (ids : List String) :
    ((∃ d ∈ ids, ∃ e, fetch d = Except.error e) →
        (ingest emb fetch st ids).1 = st
        ∧ ∃ e2, (ingest emb fetch st ids).2 = Except.error e2)
    ∧ (∀ n, (ingest emb fetch st ids).2 = Except.ok n →
        ∀ d ∈ ids, ∃ g, fetch d = Except.ok g) := by
  rcases ingest_cases emb fetch st ids with ⟨hst, e, he⟩ | ⟨hfetch, chunks, hok, _, _, _⟩
  · constructor
    · intro _
      exact ⟨hst, e, he⟩
    · intro n hn
      rw [he] at hn
      exact absurd hn (by simp)
  · constructor
    · rintro ⟨d, hd, e2, he2⟩
      rcases hfetch d hd with ⟨g, hg⟩
      rw [hg] at he2
      exact absurd he2 (by simp)
    · intro n _ d hd
      exact hfetch d hd

/-- C2 witness: a concrete failing fetch leaves the state untouched and
the call fails. -/
theorem c2_ingest_atomic_witness :
    (ingest emb0 fetchFail st0 ["d1"]).1 = st0
    ∧ ∃ e2, (ingest emb0 fetchFail st0 ["d1"]).2 = Except.error e2 :=
  (c2_ingest_atomic emb0 fetchFail st0 ["d1"]).1 ⟨"d1", by decide, (), rfl⟩

/-- C3 counterexample: searching an empty index with `k = 3` returns three
padding slots, not a sequence of length `min 3 0 = 0` as the claim states;
and `k = 0` makes faiss raise, not return the empty sequence. -/
theorem c3_search_len_counterexample :
    (searchL2 [] [(0 : ℚ)] 3).length ≠ min 3 (List.length ([] : List Vec))
    ∧ searchL2Checked [] [(0 : ℚ)] 0 ≠ Except.ok [] := by
  refine ⟨by decide, by decide⟩

/-- C3 amended: a non-positive `k` is rejected by faiss with an error (not
an empty result); for every `k ≥ 1` search returns exactly `k` result
slots: the first `min k n` are pairwise-distinct valid positions with
their true squared-euclidean distances, sorted ascending, and the
remaining `k - n` slots are faiss padding entries (position `-1`). -/
theorem c3_search_amended (db : List Vec) (q : Vec) (k : Nat) (hk : 1 ≤ k) :
    searchL2Checked db q 0 = Except.error ()
    ∧ searchL2Checked db q k = Except.ok (searchL2 db q k)
    ∧ (searchL2 db q k).length = k
    ∧ ∃ v, searchL2 db q k = v ++ List.replicate (k - db.length) padEntry
        ∧ v.length = min k db.length
        ∧ List.Sorted distLe v
        ∧ v.Pairwise (fun a b => a.1 ≠ b.1)
        ∧ ∀ p ∈ v, ∃ j w, db.get? j = some w ∧ p = ((j : Int), sqDist q w) := by
  obtain ⟨hl, hs, hm⟩ := searchL2_valid_sorted db q k
  refine ⟨rfl, ?_, searchL2_length db q k, _, searchL2_eq db q k, hl, hs,
    searchL2_take_pairwise_ne db q k, hm⟩
  unfold searchL2Checked
  rw [if_neg (by omega)]

/-- C3 witness: the amended theorem applied at a concrete index, query and
`k = 3`. -/
theorem c3_search_amended_witness :
    (searchL2 [[(1 : ℚ)]] [(0 : ℚ)] 3).length = 3 :=
  (c3_search_amended [[(1 : ℚ)]] [(0 : ℚ)] 3 (by decide)).2.2.1

/-- C4: after every successful ingestion the session's store satisfies the
§3 invariant (as many chunk texts as indexed vectors, the i-th vector
being the embedding of the i-th chunk); a failed ingestion leaves the
whole state unchanged and a chat query never changes the state, so the
invariant persists until the store is next replaced (and replacement
re-establishes it). -/
theorem c4_store_invariant (emb : PyStr → Vec) (fetch : String → Except Unit GDoc)
    (st : AppState) (ids : List String) (q : PyStr) :
    (∀ n, (ingest emb fetch st ids).2 = Except.ok n →
        ∃ vs, (ingest emb fetch st ids).1.stores defaultUser = some vs
          ∧ storeInv emb vs)
    ∧ (∀ e, (ingest emb fetch st ids).2 = Except.error e →
        (ingest emb fetch st ids).1 = st)
    ∧ (chatQuery emb st q).1 = st := by
  refine ⟨?_, ?_, ?_⟩
  · intro n hok
    rcases ingest_cases emb fetch st ids with ⟨_, e, he⟩ | ⟨_, chunks, _, hstore, _, _⟩
    · rw [he] at hok
      exact absurd hok (by simp)
    · refine ⟨⟨chunks.map emb, chunks⟩, hstore, by simp, ?_⟩
      intro i
      simp [List.get?_map]
  · intro e he
    rcases ingest_cases emb fetch st ids with ⟨hst, _⟩ | ⟨_, chunks, hok, _, _, _⟩
    · exact hst
    · rw [hok] at he
      exact absurd he (by simp)
  · unfold chatQuery
    split
    · rfl
    · split
      · rfl
      · rfl

/-- C4 witness: a concrete successful ingestion establishes the store
invariant. -/
theorem c4_store_invariant_witness :
    ∃ vs, (ingest emb0 fetchD st0 ["d1"]).1.stores defaultUser = some vs
      ∧ storeInv emb0 vs :=
  (c4_store_invariant emb0 fetchD st0 ["d1"] []).1 1 (by decide)

/-- C5 counterexample: chunking the one-character document `"\n"` yields
no chunks at all, so every reconstruction from the chunks is empty and
the newline character is dropped. -/
theorem c5_lossless_counterexample :
    List.join (splitText [nl]) = [] ∧ ([nl] : PyStr) ≠ [] := by
  refine ⟨by decide, by decide⟩

/-- C5 amended: reconstruction is exact only when nothing is stripped or
collapsed and no overlap arises: a document with no empty separator-units
(no leading, trailing or doubled newlines), no surrounding whitespace,
that fits in a single 500-character chunk is returned verbatim as the one
chunk, so concatenation reconstructs it losslessly; in general separator
characters and boundary whitespace are dropped, as the counterexample
shows. -/
theorem c5_lossless_amended (D : PyStr) (h1 : ∀ u ∈ pySplit nl D, u ≠ [])
    (h2 : pyStrip D = D) (h3 : D.length ≤ 500) (h4 : D ≠ []) :
    splitText D = [D] :=
  splitText_singleton D h1 h2 h3 h4

/-- C5 witness: a concrete in-scope document is chunked verbatim. -/
theorem c5_lossless_witness :
    splitText ("The cat sat.".data) = ["The cat sat.".data] :=
  c5_lossless_amended ("The cat sat.".data) (by decide) (by decide) (by decide)
    (by decide)

/-- C6: every chunk the splitter produces is non-empty, and no chunk
exceeds 500 characters unless it is a single whole (stripped, not
truncated) separator-unit that itself exceeds 500 characters; the empty
document yields no chunks. -/
theorem c6_chunk_bounds (D : PyStr) :
    (∀ c ∈ splitText D, c ≠ []
      ∧ (c.length ≤ 500 ∨ ∃ u ∈ splitUnits D, c = pyStrip u ∧ 500 < u.length))
    ∧ splitText [] = [] := by
  constructor
  · intro c hc
    have hU : ∀ u ∈ splitUnits D, u ≠ [] := by
      intro u hu
      simp only [splitUnits, List.mem_filter] at hu
      have := hu.2
      simp at this
      simpa using this
    exact mergeLoop_sound (splitUnits D) hU (splitUnits D) [] 0 []
      (fun u hu => hu) (by simp) rfl (Or.inl (by simp [joinLen])) (by simp) c hc
  · rfl

/-- C6 witness: the acceptance-test chunk is non-empty and within the
bound. -/
theorem c6_chunk_bounds_witness :
    catChunk ≠ []
    ∧ (catChunk.length ≤ 500
        ∨ ∃ u ∈ splitUnits dCat, catChunk = pyStrip u ∧ 500 < u.length) :=
  (c6_chunk_bounds dCat).1 catChunk (by decide)

/-- C7 (code bug, evaluation at the failing input): ingesting the single
acceptance-test document does produce exactly one chunk, but querying
afterwards does not return that chunk as the only result: FAISS pads the
`k = 3` search of the one-vector index with two `-1` positions, Python's
negative indexing maps each to the same last chunk, and the response is
the chunk repeated three times. -/
theorem c7_accept_test_eval :
    (ingest emb0 fetchD st0 ["d1"]).2 = Except.ok 1
    ∧ splitText dCat = [catChunk]
    ∧ (chatQuery emb0 (ingest emb0 fetchD st0 ["d1"]).1 qCat).2
        = Except.ok (catChunk ++ respSep ++ catChunk ++ respSep ++ catChunk)
    ∧ catChunk ++ respSep ++ catChunk ++ respSep ++ catChunk ≠ catChunk := by
  refine ⟨by decide, by decide, by decide, by decide⟩

/-- C8: a chat query for a session with no ingested store returns the
distinguishable no-store error value and leaves the state unchanged —
never a crash and never an empty success. -/
theorem c8_query_no_store (emb : PyStr → Vec) (st : AppState) (q : PyStr)
    (h : st.stores defaultUser = none) :
    chatQuery emb st q = (st, Except.error QueryError.noStoreIngested) := by
  unfold chatQuery
  rw [h]

/-- C8 witness: the fresh state yields the no-store error. -/
theorem c8_query_no_store_witness :
    chatQuery emb0 stEmpty qCat = (stEmpty, Except.error QueryError.noStoreIngested) :=
  c8_query_no_store emb0 stEmpty qCat rfl

/-- C9: every chat query is read-only on the session state — the
session-to-store mapping (with its index and chunk texts) after the call
is the state passed in, whether the call succeeds or fails. -/
theorem c9_query_readonly (emb : PyStr → Vec) (st : AppState) (q : PyStr) :
    (chatQuery emb st q).1 = st := by
  unfold chatQuery
  split
  · rfl
  · split
    · rfl
    · rfl

/-- C10: text extraction is total over the optional payload structure and
equals the in-order concatenation of every present `textRun` content;
every absent field contributes the empty string and no payload is an
error. -/
theorem c10_extract_total (g : GDoc) :
    extractText g = List.join (runTexts g) := by
  unfold extractText runTexts
  rw [extract_fold_eq]
  simp
